import Mathlib

/-!
Shallow embedding of the SwingTrade technical-indicator and composite-scoring
engine (`src/indicators.js` and `src/scoring.js`).

Conventions of the embedding:
* JavaScript numbers are modelled as exact rationals (`ℚ`).
* A bar series is a `List Bar`, sorted ascending by date as the source expects.
* JavaScript `null` results of indicator helpers are modelled with `Option ℚ`.
* `computeIndicators` returns a sum type: either the error marker or the record
  of indicator values, mirroring the `{error: ...}` / full-object split.
* Objects keyed by ticker are association lists in insertion order, matching
  the enumeration order of `Object.entries`.
* `Array.prototype.sort` with comparator `(a, b) => b.finalScore - a.finalScore`
  is a stable descending sort by `finalScore`; it is modelled with
  `List.insertionSort` over the relation `b.finalScore ≤ a.finalScore`, which
  is also stable.
* `Math.round` (round half toward positive infinity) is `jsRound`.
-/

/-- One OHLCV bar: open, high, low, close, volume. -/
structure Bar where
  o : ℚ
  h : ℚ
  l : ℚ
  c : ℚ
  v : ℚ
deriving DecidableEq

/-- Simple Moving Average over the last `period` close prices
(`sma` in indicators.js; `closes.slice(-period)` is the last `period` entries). -/
def sma (closes : List ℚ) (period : ℕ) : Option ℚ :=
  if closes.length < period then none
  else some ((closes.drop (closes.length - period)).sum / (period : ℚ))

/-- SMA at a specific offset from the end, 0 = latest (`smaAt` in indicators.js:
`closes.slice(end - period, end)` with `end = closes.length - offset`). -/
def smaAt (closes : List ℚ) (period offset : ℕ) : Option ℚ :=
  if closes.length < period + offset then none
  else
    let e := closes.length - offset
    some (((closes.take e).drop (e - period)).sum / (period : ℚ))

/-- The loop `for (i = period; i < closes.length; i++) emaVal = (closes[i] - emaVal) * multiplier + emaVal`
from `ema` in indicators.js, expressed as recursion over the remaining closes. -/
def emaLoop (multiplier : ℚ) : ℚ → List ℚ → ℚ
  | emaVal, [] => emaVal
  | emaVal, c :: cs => emaLoop multiplier ((c - emaVal) * multiplier + emaVal) cs

/-- Exponential Moving Average (`ema` in indicators.js): seeded with the simple
average of the FIRST `period` closes, then the recursive loop over the rest. -/
def ema (closes : List ℚ) (period : ℕ) : Option ℚ :=
  if closes.length < period then none
  else
    let multiplier : ℚ := 2 / ((period : ℚ) + 1)
    some (emaLoop multiplier ((closes.take period).sum / (period : ℚ)) (closes.drop period))

/-- The close-to-close change series `changes[i-1] = closes[i] - closes[i-1]`
built by the first loop of `rsi` in indicators.js. -/
def changes (closes : List ℚ) : List ℚ :=
  (closes.zip closes.tail).map fun p => p.2 - p.1

/-- Wilder smoothing loop of `rsi` in indicators.js, carrying `(avgGain, avgLoss)`. -/
def rsiLoop (period : ℕ) : ℚ → ℚ → List ℚ → ℚ × ℚ
  | avgGain, avgLoss, [] => (avgGain, avgLoss)
  | avgGain, avgLoss, ch :: chs =>
      rsiLoop period ((avgGain * ((period : ℚ) - 1) + (if ch > 0 then ch else 0)) / (period : ℚ))
        ((avgLoss * ((period : ℚ) - 1) + (if ch < 0 then |ch| else 0)) / (period : ℚ)) chs

/-- Relative Strength Index (`rsi` in indicators.js). The first average adds
`changes[i]` to the gains when positive and `|changes[i]|` to the losses
otherwise (so a zero change counts to the losses as 0). -/
def rsi (closes : List ℚ) (period : ℕ) : Option ℚ :=
  if closes.length < period + 1 then none
  else
    let chs := changes closes
    let avgGain := ((chs.take period).map fun ch => if ch > 0 then ch else 0).sum / (period : ℚ)
    let avgLoss := ((chs.take period).map fun ch => if ch > 0 then 0 else |ch|).sum / (period : ℚ)
    let s := rsiLoop period avgGain avgLoss (chs.drop period)
    if s.2 = 0 then some 100
    else some (100 - 100 / (1 + s.1 / s.2))

/-- True Range series of `atr` in indicators.js:
`max(high - low, |high - prevClose|, |low - prevClose|)` for each bar after the first. -/
def trSeries (bars : List Bar) : List ℚ :=
  (bars.zip bars.tail).map fun p =>
    max (p.2.h - p.2.l) (max |p.2.h - p.1.c| |p.2.l - p.1.c|)

/-- Wilder smoothing loop of `atr` in indicators.js. -/
def atrLoop (period : ℕ) : ℚ → List ℚ → ℚ
  | atrVal, [] => atrVal
  | atrVal, tr :: trs => atrLoop period ((atrVal * ((period : ℚ) - 1) + tr) / (period : ℚ)) trs

/-- Average True Range (`atr` in indicators.js): first ATR is the simple average
of the first `period` true ranges, then Wilder smoothing over the rest. -/
def atr (bars : List Bar) (period : ℕ) : Option ℚ :=
  if bars.length < period + 1 then none
  else
    let trs := trSeries bars
    if trs.length < period then none
    else some (atrLoop period ((trs.take period).sum / (period : ℚ)) (trs.drop period))

/-- Average volume over the last `period` bars (`avgVolume` in indicators.js). -/
def avgVolume (bars : List Bar) (period : ℕ) : Option ℚ :=
  if bars.length < period then none
  else some (((bars.drop (bars.length - period)).map Bar.v).sum / (period : ℚ))

/-- Percentage return over the last `tradingDays` trading days
(`returnPct` in indicators.js). -/
def returnPct (closes : List ℚ) (tradingDays : ℕ) : Option ℚ :=
  if closes.length < tradingDays + 1 then none
  else
    let current := closes.getD (closes.length - 1) 0
    let past := closes.getD (closes.length - 1 - tradingDays) 0
    some ((current - past) / past * 100)

/-- The record of indicator values assembled by `computeIndicators`. -/
structure IndRec where
  close : ℚ
  ema20 : Option ℚ
  sma50 : Option ℚ
  sma50_20ago : Option ℚ
  rsi14 : Option ℚ
  atr5 : Option ℚ
  atr14 : Option ℚ
  atr20 : Option ℚ
  avgVol20 : Option ℚ
  return1m : Option ℚ
  return3m : Option ℚ
deriving DecidableEq

/-- Result of `computeIndicators`: either the error marker object (with no other
field) or the full indicator record. -/
inductive IndicatorSet where
  | err (msg : String)
  | ok (r : IndRec)
deriving DecidableEq

/-- `computeIndicators` from indicators.js. -/
def computeIndicators (bars : List Bar) : IndicatorSet :=
  if bars.length < 80 then .err "Insufficient data (need at least 80 trading days)"
  else
    let closes := bars.map Bar.c
    .ok
      { close := closes.getD (closes.length - 1) 0
        ema20 := ema closes 20
        sma50 := sma closes 50
        sma50_20ago := smaAt closes 50 20
        rsi14 := rsi closes 14
        atr5 := atr bars 5
        atr14 := atr bars 14
        atr20 := atr bars 20
        avgVol20 := avgVolume bars 20
        return1m := returnPct closes 21
        return3m := returnPct closes 63 }

/-- The scan loop of `gradientScore` in scoring.js (`for (i = 1; ...)`):
`prev` is breakpoint `i-1`; when `value ≤ x_i` interpolate between `prev` and
breakpoint `i`; when the loop falls through, return the last breakpoint's score. -/
def interpolate (value : ℚ) : ℚ × ℚ → List (ℚ × ℚ) → ℚ
  | prev, [] => prev.2
  | prev, bp :: bps =>
      if value ≤ bp.1 then prev.2 + (value - prev.1) / (bp.1 - prev.1) * (bp.2 - prev.2)
      else interpolate value bp bps

/-- `gradientScore` from scoring.js: clamp below the first and above the last
breakpoint, otherwise linear interpolation; 0 for an empty breakpoint list. -/
def gradientScore (value : ℚ) (breakpoints : List (ℚ × ℚ)) : ℚ :=
  match breakpoints with
  | [] => 0
  | b0 :: rest =>
    if value ≤ b0.1 then b0.2
    else if (rest.getLastD b0).1 ≤ value then (rest.getLastD b0).2
    else interpolate value b0 rest

/-- `percentileRank` from scoring.js: sort ascending, count 1 for each element
below `value` and 0.5 for each element equal to it, divide by the length. -/
def percentileRank (value : ℚ) (allValues : List ℚ) : ℚ :=
  let sorted := allValues.insertionSort (fun a b => a ≤ b)
  let count := sorted.foldl
    (fun count v => if v < value then count + 1 else if v = value then count + 0.5 else count) 0
  count / (sorted.length : ℚ)

/-- `calcRSComposite` from scoring.js. Both call sites first check that the
stock's `return1m`/`return3m` are non-null, and the SPY record is only used
after `computeIndicators` succeeded on ≥ 80 bars, so the `getD 0` defaults that
stand for the JavaScript field accesses are never observed. -/
def calcRSComposite (stockInd spyInd : IndRec) : ℚ :=
  let rs1m := stockInd.return1m.getD 0 - spyInd.return1m.getD 0
  let rs3m := stockInd.return3m.getD 0 - spyInd.return3m.getD 0
  0.6 * rs3m + 0.4 * rs1m

/-- The per-ticker composite assignment of `calcRSScores`: `null` when the
indicator set is an error or `return1m`/`return3m` is null, otherwise
`calcRSComposite`. -/
def compositeOfInd (spyInd : IndRec) : IndicatorSet → Option ℚ
  | .err _ => none
  | .ok r =>
      if r.return1m.isNone || r.return3m.isNone then none
      else some (calcRSComposite r spyInd)

/-- The `composites` map built by the first loop of `calcRSScores`. -/
def rsComposites (allInd : List (String × IndicatorSet)) (spyInd : IndRec) :
    List (String × Option ℚ) :=
  allInd.map fun ti => (ti.1, compositeOfInd spyInd ti.2)

/-- `validValues` of `calcRSScores`: all non-null composites, in ticker order. -/
def rsValidValues (allInd : List (String × IndicatorSet)) (spyInd : IndRec) : List ℚ :=
  (rsComposites allInd spyInd).filterMap Prod.snd

/-- The per-ticker score assignment of the second loop of `calcRSScores`. -/
def scoreOfComposite (validValues : List ℚ) : Option ℚ → ℚ
  | none => 0
  | some comp => percentileRank comp validValues * 100

/-- `calcRSScores` from scoring.js, returning `(scores, composites)`. -/
def calcRSScores (allInd : List (String × IndicatorSet)) (spyInd : IndRec) :
    List (String × ℚ) × List (String × Option ℚ) :=
  let composites := rsComposites allInd spyInd
  let validValues := rsValidValues allInd spyInd
  (composites.map fun tc => (tc.1, scoreOfComposite validValues tc.2), composites)

/-- Body of `calcTrendScore` after its null guard (scoring.js lines 91-103). -/
def trendBody (r : IndRec) : ℚ :=
  let e20 := r.ema20.getD 0
  let s50 := r.sma50.getD 0
  let s50ago := r.sma50_20ago.getD 0
  let distCloseEma20 := (r.close - e20) / e20 * 100
  let t1 := gradientScore distCloseEma20 [(-5, 0), (0, 0.5), (5, 1)]
  let distCloseSma50 := (r.close - s50) / s50 * 100
  let t2 := gradientScore distCloseSma50 [(-5, 0), (0, 0.5), (5, 1)]
  let distEmaSma := (e20 - s50) / s50 * 100
  let t3 := gradientScore distEmaSma [(-3, 0), (0, 0.5), (3, 1)]
  let smaSlope := (s50 - s50ago) / s50ago * 100
  let t4 := gradientScore smaSlope [(-3, 0), (0, 0.5), (3, 1)]
  (t1 + t2 + t3 + t4) / 4 * 100

/-- `calcTrendScore` from scoring.js. -/
def calcTrendScore : IndicatorSet → ℚ
  | .err _ => 0
  | .ok r =>
      if r.ema20.isNone || r.sma50.isNone || r.sma50_20ago.isNone then 0
      else trendBody r

/-- Body of `calcPullbackScore` after its null guard (scoring.js lines 127-150). -/
def pullbackBody (r : IndRec) : ℚ :=
  let e20 := r.ema20.getD 0
  let s50 := r.sma50.getD 0
  let dist20 := (r.close - e20) / e20 * 100
  let base := gradientScore dist20
    [(-3, 0), (0, 80), (1.5, 100), (3, 90), (6, 60), (10, 20), (15, 0)]
  let dist50 := (r.close - s50) / s50 * 100
  let afterSma :=
    if dist50 < 0 then base * gradientScore dist50 [(-5, 0), (0, 1)] else base
  let afterRsi :=
    match r.rsi14 with
    | some rv => afterSma + gradientScore rv [(35, 0), (45, 5), (55, 10), (65, 5), (75, 0)]
    | none => afterSma
  min (max afterRsi 0) 100

/-- `calcPullbackScore` from scoring.js. -/
def calcPullbackScore : IndicatorSet → ℚ
  | .err _ => 0
  | .ok r =>
      if r.ema20.isNone || r.sma50.isNone then 0
      else pullbackBody r

/-- `calcVolatilityScore` from scoring.js. -/
def calcVolatilityScore : IndicatorSet → ℚ
  | .err _ => 0
  | .ok r =>
      if r.atr14.isNone then 0
      else
        let atrPct := r.atr14.getD 0 / r.close * 100
        let base := gradientScore atrPct
          [(0, 10), (1, 50), (2, 90), (3, 100), (4, 90), (6, 60), (8, 30), (10, 10)]
        let withPenalty :=
          match r.avgVol20 with
          | some av =>
              if av < 500000 then base + gradientScore av [(0, -40), (200000, -20), (500000, 0)]
              else base
          | none => base
        max withPenalty 0

/-- JavaScript `Math.round`: round half toward positive infinity. -/
def jsRound (x : ℚ) : ℤ := (x + 1/2).floor

/-- `Math.round(x * 100) / 100`: round to two decimal places. -/
def round2 (x : ℚ) : ℚ := ((jsRound (x * 100) : ℚ)) / 100

/-- The rounded `indicators` sub-object attached to each successful result
record by `calculateAllScores`. A JavaScript conditional `ind.f ? e : null`
is falsy both when the field is null and when it is 0. -/
structure IndDisplay where
  close : ℚ
  ema20 : Option ℚ
  sma50 : Option ℚ
  rsi14 : Option ℚ
  atr14 : Option ℚ
  atrPct : Option ℚ
  dist20 : Option ℚ
  dist50 : Option ℚ
  return1m : Option ℚ
  return3m : Option ℚ
  avgVol20 : Option ℤ
deriving DecidableEq

/-- One entry of the `results` array of `calculateAllScores`. Error records
carry `error = some msg`, zero scores and no `indicators` object. -/
structure ScoredResult where
  ticker : String
  error : Option String
  finalScore : ℚ
  rsScore : ℚ
  rsComposite : Option ℚ
  trendScore : ℚ
  pullbackScore : ℚ
  volatilityScore : ℚ
  indicators : Option IndDisplay
  rank : ℕ
deriving DecidableEq

/-- The loop body of `calculateAllScores` that pushes one record onto `results`
(before sorting and rank assignment; `rank` is initialised to 0 and overwritten
later). `rsScores[ticker] || 0` is modelled by `(lookup ticker).getD 0`, which
agrees because the stored scores are never negative NaN-like values and a
missing key yields `undefined || 0 = 0`. -/
def buildResult (rsScores : List (String × ℚ)) (rsComps : List (String × Option ℚ))
    (ticker : String) (ind : IndicatorSet) : ScoredResult :=
  match ind with
  | .err msg =>
      { ticker := ticker, error := some msg, finalScore := 0, rsScore := 0,
        rsComposite := none, trendScore := 0, pullbackScore := 0,
        volatilityScore := 0, indicators := none, rank := 0 }
  | .ok r =>
      let rsScore := (rsScores.lookup ticker).getD 0
      let trendScore := calcTrendScore (.ok r)
      let pullbackScore := calcPullbackScore (.ok r)
      let volatilityScore := calcVolatilityScore (.ok r)
      let finalScore :=
        0.40 * rsScore + 0.25 * trendScore + 0.20 * pullbackScore + 0.15 * volatilityScore
      let dist20 : Option ℚ :=
        if r.ema20.getD 0 = 0 then none
        else some ((r.close - r.ema20.getD 0) / r.ema20.getD 0 * 100)
      let dist50 : Option ℚ :=
        if r.sma50.getD 0 = 0 then none
        else some ((r.close - r.sma50.getD 0) / r.sma50.getD 0 * 100)
      let atrPct : Option ℚ :=
        if r.atr14.getD 0 = 0 then none
        else some (r.atr14.getD 0 / r.close * 100)
      { ticker := ticker
        error := none
        finalScore := round2 finalScore
        rsScore := round2 rsScore
        rsComposite := ((rsComps.lookup ticker).getD none).map round2
        trendScore := round2 trendScore
        pullbackScore := round2 pullbackScore
        volatilityScore := round2 volatilityScore
        indicators := some
          { close := round2 r.close
            ema20 := r.ema20.map round2
            sma50 := r.sma50.map round2
            rsi14 := r.rsi14.map round2
            atr14 := r.atr14.map round2
            atrPct := atrPct.map round2
            dist20 := dist20.map round2
            dist50 := dist50.map round2
            return1m := r.return1m.map round2
            return3m := r.return3m.map round2
            avgVol20 := r.avgVol20.map jsRound }
        rank := 0 }

/-- The indicator map `allIndicators` of `calculateAllScores`. -/
def allIndicatorsOf (allStockBars : List (String × List Bar)) : List (String × IndicatorSet) :=
  allStockBars.map fun tb => (tb.1, computeIndicators tb.2)

/-- The unsorted `results` array of `calculateAllScores`. -/
def rawResults (allStockBars : List (String × List Bar)) (spyInd : IndRec) : List ScoredResult :=
  let allIndicators := allIndicatorsOf allStockBars
  let rs := calcRSScores allIndicators spyInd
  allIndicators.map fun ti => buildResult rs.1 rs.2 ti.1 ti.2

/-- The descending-by-`finalScore` order of the final sort. -/
def resultRel (a b : ScoredResult) : Prop := b.finalScore ≤ a.finalScore

instance : DecidableRel resultRel := fun _ _ => inferInstanceAs (Decidable (_ ≤ _))

instance : IsTrans ScoredResult resultRel :=
  ⟨fun _ _ _ hab hbc => le_trans hbc hab⟩

instance : IsTotal ScoredResult resultRel :=
  ⟨fun a b => (le_total b.finalScore a.finalScore).imp id id⟩

/-- The batch output of `calculateAllScores`: the ranked results plus the
`spyData` summary. (The `analyzedAt` wall-clock timestamp is outside the pure
engine and is not modelled.) -/
structure BatchOutput where
  results : List ScoredResult
  spyReturn1m : ℚ
  spyReturn3m : ℚ
deriving DecidableEq

/-- `calculateAllScores` from scoring.js. A benchmark indicator error throws,
modelled with `Except.error`; otherwise the results are sorted stably,
descending by `finalScore`, and `rank = i + 1` is assigned by position. -/
def calculateAllScores (allStockBars : List (String × List Bar)) (spyBars : List Bar) :
    Except String BatchOutput :=
  match computeIndicators spyBars with
  | .err msg => .error ("SPY data error: " ++ msg)
  | .ok spyInd =>
      let sorted := (rawResults allStockBars spyInd).insertionSort resultRel
      .ok
        { results := sorted.enum.map fun p => { p.2 with rank := p.1 + 1 }
          spyReturn1m := round2 (spyInd.return1m.getD 0)
          spyReturn3m := round2 (spyInd.return3m.getD 0) }

/-- EMA as the spec words it: seeded as the simple average of the FIRST
`period` closes in the series (not the most recent), multiplier
`2/(period+1)`, recursively applied forward through the remaining closes. -/
def emaSpec (closes : List ℚ) (period : ℕ) : ℚ :=
  (closes.drop period).foldl
    (fun e c => e + (2 / ((period : ℚ) + 1)) * (c - e))
    ((closes.take period).sum / (period : ℚ))

/-- Guard of the first loop of `calcRSScores`: the ticker is skipped (null
composite) when its indicator set is an error or a return is null. -/
def rsMissing (ind : IndicatorSet) : Bool :=
  match ind with
  | .err _ => true
  | .ok r => r.return1m.isNone || r.return3m.isNone

/-! Concrete inputs used for witnesses and counterexamples. -/

/-- A flat bar: every price 100, volume 1,000,000. -/
def constBar : Bar := { o := 100, h := 100, l := 100, c := 100, v := 1000000 }

/-- A bar at price 100.1, volume 1,000,000. -/
def upBar : Bar := { o := 100.1, h := 100.1, l := 100.1, c := 100.1, v := 1000000 }

/-- An 80-bar flat benchmark series. -/
def spyBarsEx : List Bar := List.replicate 80 constBar

/-- A 79-bar series (one short of the 80-bar precondition). -/
def bars79 : List Bar := List.replicate 79 constBar

/-- An 80-bar series: flat at 100 with a final close of 100.1. -/
def stockBarsEx : List Bar := List.replicate 79 constBar ++ [upBar]

/-- A one-ticker batch input. -/
def cexStocks : List (String × List Bar) := [("AAA", stockBarsEx)]

/-- Fallback indicator record (never observed on the concrete inputs). -/
def defaultIndRec : IndRec :=
  { close := 0, ema20 := none, sma50 := none, sma50_20ago := none, rsi14 := none,
    atr5 := none, atr14 := none, atr20 := none, avgVol20 := none,
    return1m := none, return3m := none }

/-- The benchmark indicator record of `spyBarsEx`. -/
def spyIndEx : IndRec :=
  match computeIndicators spyBarsEx with
  | .ok r => r
  | .err _ => defaultIndRec

/-- Fallback result record (never observed on the concrete inputs). -/
def defaultResult : ScoredResult :=
  { ticker := "", error := none, finalScore := 0, rsScore := 0, rsComposite := none,
    trendScore := 0, pullbackScore := 0, volatilityScore := 0, indicators := none, rank := 0 }

/-- Fallback batch output (never observed on the concrete inputs). -/
def defaultOutput : BatchOutput := { results := [], spyReturn1m := 0, spyReturn3m := 0 }

/-- The batch output on the concrete one-ticker input. -/
def cexOut : BatchOutput := ((calculateAllScores cexStocks spyBarsEx).toOption).getD defaultOutput

/-- The single result record of `cexOut`. -/
def cexRes : ScoredResult := cexOut.results.getD 0 defaultResult

/-! Helper lemmas about `emaLoop`, `interpolate`, `gradientScore` and
`percentileRank`. -/

theorem emaLoop_eq_foldl (m : ℚ) :
    ∀ (l : List ℚ) (e : ℚ), emaLoop m e l = l.foldl (fun e c => e + m * (c - e)) e := by
  intro l
  induction l with
  | nil => intro e; rfl
  | cons c cs ih =>
      intro e
      show emaLoop m ((c - e) * m + e) cs = cs.foldl _ (e + m * (c - e))
      rw [ih]
      congr 1
      ring

theorem interpolate_here (v : ℚ) (prev q : ℚ × ℚ) (l2 : List (ℚ × ℚ)) (hq : v ≤ q.1) :
    interpolate v prev (q :: l2) = prev.2 + (v - prev.1) / (q.1 - prev.1) * (q.2 - prev.2) := by
  simp only [interpolate, if_pos hq]

theorem interpolate_go (v : ℚ) (p q : ℚ × ℚ) (l2 : List (ℚ × ℚ)) :
    ∀ (l1 : List (ℚ × ℚ)) (prev : ℚ × ℚ), (∀ mid ∈ l1, mid.1 < v) → p.1 < v → v ≤ q.1 →
      interpolate v prev (l1 ++ p :: q :: l2)
        = p.2 + (v - p.1) / (q.1 - p.1) * (q.2 - p.2) := by
  intro l1
  induction l1 with
  | nil =>
      intro prev _ hp hq
      rw [List.nil_append]
      simp only [interpolate, if_neg (not_le.mpr hp)]
      exact interpolate_here v p q l2 hq
  | cons mid l1 ih =>
      intro prev hmids hp hq
      have hmid : mid.1 < v := hmids mid (List.mem_cons_self _ _)
      rw [List.cons_append]
      simp only [interpolate, if_neg (not_le.mpr hmid)]
      exact ih mid (fun x hx => hmids x (List.mem_cons_of_mem _ hx)) hp hq

theorem interpolate_bounds (v lo hi : ℚ) :
    ∀ (ps : List (ℚ × ℚ)) (prev : ℚ × ℚ), prev.1 < v →
      List.Chain (fun a b : ℚ × ℚ => a.1 < b.1) prev ps →
      lo ≤ prev.2 → prev.2 ≤ hi →
      (∀ p ∈ ps, lo ≤ p.2 ∧ p.2 ≤ hi) →
      lo ≤ interpolate v prev ps ∧ interpolate v prev ps ≤ hi := by
  intro ps
  induction ps with
  | nil =>
      intro prev _ _ h1 h2 _
      exact ⟨h1, h2⟩
  | cons bp ps ih =>
      intro prev hpv hchain hlo hhi hmem
      rw [List.chain_cons] at hchain
      obtain ⟨hpb, hchain2⟩ := hchain
      obtain ⟨hblo, hbhi⟩ := hmem bp (List.mem_cons_self _ _)
      by_cases hv : v ≤ bp.1
      · simp only [interpolate, if_pos hv]
        have hd : (0 : ℚ) < bp.1 - prev.1 := by linarith
        have ht0 : 0 ≤ (v - prev.1) / (bp.1 - prev.1) := div_nonneg (by linarith) hd.le
        have ht1 : (v - prev.1) / (bp.1 - prev.1) ≤ 1 := by
          rw [div_le_one hd]; linarith
        constructor
        · nlinarith [mul_nonneg ht0 (sub_nonneg.mpr hblo),
            mul_nonneg (sub_nonneg.mpr ht1) (sub_nonneg.mpr hlo)]
        · nlinarith [mul_nonneg ht0 (sub_nonneg.mpr hbhi),
            mul_nonneg (sub_nonneg.mpr ht1) (sub_nonneg.mpr hhi)]
      · simp only [interpolate, if_neg hv]
        exact ih bp (not_le.mp hv) hchain2 hblo hbhi
          (fun x hx => hmem x (List.mem_cons_of_mem _ hx))

theorem getLastD_mem_cons {α : Type _} : ∀ (l : List α) (a : α), l.getLastD a ∈ a :: l := by
  intro l
  induction l with
  | nil => intro a; simp
  | cons b l ih =>
      intro a
      rw [List.getLastD_cons]
      exact List.mem_cons_of_mem a (ih b)

theorem gradientScore_bounds (v lo hi : ℚ) (bps : List (ℚ × ℚ))
    (hne : bps ≠ [])
    (hsorted : List.Chain' (fun a b : ℚ × ℚ => a.1 < b.1) bps)
    (hys : ∀ p ∈ bps, lo ≤ p.2 ∧ p.2 ≤ hi) :
    lo ≤ gradientScore v bps ∧ gradientScore v bps ≤ hi := by
  match bps, hne with
  | b0 :: rest, _ =>
    simp only [gradientScore]
    by_cases h1 : v ≤ b0.1
    · rw [if_pos h1]
      exact hys b0 (List.mem_cons_self _ _)
    · rw [if_neg h1]
      by_cases h2 : (rest.getLastD b0).1 ≤ v
      · rw [if_pos h2]
        exact hys _ (getLastD_mem_cons rest b0)
      · rw [if_neg h2]
        have hchain : List.Chain (fun a b : ℚ × ℚ => a.1 < b.1) b0 rest := hsorted
        exact interpolate_bounds v lo hi rest b0 (not_le.mp h1) hchain
          (hys b0 (List.mem_cons_self _ _)).1 (hys b0 (List.mem_cons_self _ _)).2
          (fun x hx => hys x (List.mem_cons_of_mem _ hx))

theorem getLast_cons_eq_getLastD {α : Type _} :
    ∀ (l : List α) (a : α), (a :: l).getLast (List.cons_ne_nil a l) = l.getLastD a := by
  intro l
  induction l with
  | nil => intro a; rfl
  | cons b l ih =>
      intro a
      rw [List.getLastD_cons, ← ih b]
      exact List.getLast_cons (List.cons_ne_nil b l)

theorem getLast_append_cons {α : Type _} :
    ∀ (l1 : List α) (p : α) (l2 : List α) (h : l1 ++ p :: l2 ≠ []),
      (l1 ++ p :: l2).getLast h = (p :: l2).getLast (List.cons_ne_nil p l2) := by
  intro l1
  induction l1 with
  | nil => intro p l2 h; rfl
  | cons x l1 ih =>
      intro p l2 h
      have h2 : l1 ++ p :: l2 ≠ [] := by simp
      rw [show (x :: l1 ++ p :: l2).getLast h = (l1 ++ p :: l2).getLast h2 from
        List.getLast_cons h2]
      exact ih p l2 h2

theorem getLastD_append {α : Type _} :
    ∀ (l1 l2 : List α) (a : α), (l1 ++ l2).getLastD a = l2.getLastD (l1.getLastD a) := by
  intro l1
  induction l1 with
  | nil => intro l2 a; rfl
  | cons x l1 ih =>
      intro l2 a
      rw [List.cons_append, List.getLastD_cons, List.getLastD_cons, ih]

/-- C2: for a nonempty, strictly-ascending breakpoint list, `gradientScore`
returns the first score when the value is at or below the first breakpoint,
the last score when the value is at or above the last breakpoint, and
otherwise linearly interpolates over the unique bracketing pair
`x0 < v ≤ x1`; the empty breakpoint list gives 0. -/
theorem gradientScore_spec :
    ∀ (v : ℚ) (bps : List (ℚ × ℚ)),
      List.Chain' (fun a b : ℚ × ℚ => a.1 < b.1) bps →
      (gradientScore v ([] : List (ℚ × ℚ)) = 0) ∧
      (∀ b0 rest, bps = b0 :: rest →
        (v ≤ b0.1 → gradientScore v bps = b0.2) ∧
        ((rest.getLastD b0).1 ≤ v → gradientScore v bps = (rest.getLastD b0).2) ∧
        (∀ l1 p q l2, bps = l1 ++ p :: q :: l2 → p.1 < v → v ≤ q.1 →
          gradientScore v bps = p.2 + (v - p.1) / (q.1 - p.1) * (q.2 - p.2))) := by
  intro v bps hsorted
  haveI : IsTrans (ℚ × ℚ) (fun a b : ℚ × ℚ => a.1 < b.1) :=
    ⟨fun _ _ _ h1 h2 => lt_trans h1 h2⟩
  refine ⟨rfl, ?_⟩
  intro b0 rest hcons
  subst hcons
  have hpw0 : List.Pairwise (fun a b : ℚ × ℚ => a.1 < b.1) (b0 :: rest) :=
    List.chain'_iff_pairwise.mp hsorted
  refine ⟨?_, ?_, ?_⟩
  · intro hle
    simp only [gradientScore, if_pos hle]
  · cases rest with
    | nil =>
        intro _
        simp only [List.getLastD, gradientScore, interpolate]
        split_ifs <;> rfl
    | cons b1 rest2 =>
        intro hge
        have hmem : (b1 :: rest2).getLastD b0 ∈ b1 :: rest2 := by
          rw [List.getLastD_cons]
          exact getLastD_mem_cons rest2 b1
        have hb0last : b0.1 < ((b1 :: rest2).getLastD b0).1 :=
          (List.pairwise_cons.mp hpw0).1 _ hmem
        have h1 : ¬ (v ≤ b0.1) := by linarith
        simp only [gradientScore, if_neg h1, if_pos hge]
  · intro l1 p q l2 hdec hp hq
    have hpw : List.Pairwise (fun a b : ℚ × ℚ => a.1 < b.1) (l1 ++ p :: q :: l2) :=
      hdec ▸ hpw0
    rw [List.pairwise_append] at hpw
    obtain ⟨_, hpwrest, hcross⟩ := hpw
    rw [List.pairwise_cons] at hpwrest
    obtain ⟨hpall, hpwq⟩ := hpwrest
    rw [List.pairwise_cons] at hpwq
    obtain ⟨hqall, _⟩ := hpwq
    have hpq : p.1 < q.1 := hpall q (List.mem_cons_self _ _)
    have hg1 : ¬ (v ≤ b0.1) := by
      cases l1 with
      | nil =>
          rw [List.nil_append] at hdec
          injection hdec with h1 _
          rw [h1]
          exact not_le.mpr hp
      | cons x l1' =>
          rw [List.cons_append] at hdec
          injection hdec with h1 _
          have hxp : x.1 < p.1 :=
            hcross x (List.mem_cons_self _ _) p (List.mem_cons_self _ _)
          rw [h1]
          exact not_le.mpr (by linarith)
    have hlast : rest.getLastD b0 = l2.getLastD q := by
      rw [← List.getLastD_cons q b0 rest, hdec, getLastD_append,
        List.getLastD_cons, List.getLastD_cons]
    by_cases hg2 : (rest.getLastD b0).1 ≤ v
    · cases l2 with
      | nil =>
          have hlq : rest.getLastD b0 = q := hlast
          have hg2q : q.1 ≤ v := by rw [hlq] at hg2; exact hg2
          have hveq : v = q.1 := le_antisymm hq hg2q
          simp only [gradientScore, if_neg hg1, hlq, if_pos hg2q]
          rw [hveq, div_self (ne_of_gt (by linarith : (0 : ℚ) < q.1 - p.1))]
          ring
      | cons y l2' =>
          exfalso
          have hmem2 : (y :: l2').getLastD q ∈ y :: l2' := by
            rw [List.getLastD_cons]
            exact getLastD_mem_cons l2' y
          have hql : q.1 < ((y :: l2').getLastD q).1 := hqall _ hmem2
          rw [hlast] at hg2
          linarith
    · simp only [gradientScore, if_neg hg1, if_neg hg2]
      cases l1 with
      | nil =>
          rw [List.nil_append] at hdec
          injection hdec with h1 h2
          rw [h1, h2]
          rw [interpolate_here v p q l2 hq]
      | cons x l1' =>
          rw [List.cons_append] at hdec
          injection hdec with h1 h2
          rw [h2]
          exact interpolate_go v p q l2 l1' b0
            (fun mid hmid =>
              lt_trans
                (hcross mid (List.mem_cons_of_mem _ hmid) p (List.mem_cons_self _ _)) hp)
            hp hq

theorem countFoldl (value : ℚ) :
    ∀ (l : List ℚ) (c : ℚ),
      l.foldl (fun count v => if v < value then count + 1
        else if v = value then count + 0.5 else count) c
        = c + ((l.countP fun s => decide (s < value) : ℕ) : ℚ)
            + 0.5 * ((l.countP fun s => decide (s = value) : ℕ) : ℚ) := by
  intro l
  induction l with
  | nil => intro c; simp
  | cons x l ih =>
      intro c
      rw [List.foldl_cons, ih, List.countP_cons, List.countP_cons]
      by_cases h1 : x < value <;> by_cases h2 : x = value
      · exact absurd h2 (ne_of_lt h1)
      all_goals simp [h1, h2]
      all_goals ring

theorem percentileRank_eq (v : ℚ) (S : List ℚ) :
    percentileRank v S
      = (((S.countP fun s => decide (s < v)) : ℚ)
          + 0.5 * ((S.countP fun s => decide (s = v)) : ℚ)) / (S.length : ℚ) := by
  unfold percentileRank
  dsimp only
  rw [countFoldl]
  have hperm := List.perm_insertionSort (fun a b : ℚ => a ≤ b) S
  rw [hperm.countP_eq, hperm.countP_eq, hperm.length_eq, zero_add]

theorem count_le_length (v : ℚ) :
    ∀ S : List ℚ,
      ((S.countP fun s => decide (s < v)) : ℚ)
          + 0.5 * ((S.countP fun s => decide (s = v)) : ℚ) ≤ (S.length : ℚ) := by
  intro S
  induction S with
  | nil => simp
  | cons x S ih =>
      rw [List.countP_cons, List.countP_cons, List.length_cons]
      by_cases h1 : x < v <;> by_cases h2 : x = v
      · exact absurd h2 (ne_of_lt h1)
      all_goals simp [h1, h2]
      all_goals linarith

theorem countP_disjoint_le (v : ℚ) :
    ∀ S : List ℚ,
      (S.countP fun s => decide (s < v)) + (S.countP fun s => decide (s = v)) ≤ S.length := by
  intro S
  induction S with
  | nil => simp
  | cons x S ih =>
      rw [List.countP_cons, List.countP_cons, List.length_cons]
      by_cases h1 : x < v <;> by_cases h2 : x = v
      · exact absurd h2 (ne_of_lt h1)
      all_goals simp [h1, h2]
      all_goals omega

theorem percentileRank_nonneg (v : ℚ) (S : List ℚ) : 0 ≤ percentileRank v S := by
  rw [percentileRank_eq]
  apply div_nonneg _ (Nat.cast_nonneg _)
  positivity

theorem percentileRank_le_one (v : ℚ) (S : List ℚ) (h : S ≠ []) : percentileRank v S ≤ 1 := by
  rw [percentileRank_eq]
  rw [div_le_one (by exact_mod_cast List.length_pos.mpr h)]
  exact count_le_length v S

theorem percentileRank_mem_bounds (v : ℚ) (S : List ℚ) (hv : v ∈ S) :
    0 < percentileRank v S ∧ percentileRank v S < 1 := by
  have hne : S ≠ [] := List.ne_nil_of_mem hv
  have hlen : (0 : ℚ) < (S.length : ℚ) := by exact_mod_cast List.length_pos.mpr hne
  have heqc : 1 ≤ (S.countP fun s => decide (s = v)) :=
    List.countP_pos_iff.mpr ⟨v, hv, by simp⟩
  have heqc' : (1 : ℚ) ≤ ((S.countP fun s => decide (s = v)) : ℚ) := by exact_mod_cast heqc
  have hdisj := countP_disjoint_le v S
  have hdisj' : ((S.countP fun s => decide (s < v)) : ℚ)
      + ((S.countP fun s => decide (s = v)) : ℚ) ≤ (S.length : ℚ) := by exact_mod_cast hdisj
  have hlt0 : (0 : ℚ) ≤ ((S.countP fun s => decide (s < v)) : ℚ) := Nat.cast_nonneg _
  rw [percentileRank_eq]
  constructor
  · apply div_pos _ hlen
    linarith
  · rw [div_lt_one hlen]
    linarith

/-- C3: the percentile rank of `v` within a nonempty list `S` is
`(count of elements < v + 0.5 * count of elements = v) / |S|`; in particular
the rank of 2 in `[1, 2, 2, 3]` is 0.5, giving RS score 50. -/
theorem percentileRank_spec :
    ∀ (v : ℚ) (S : List ℚ), S ≠ [] →
      percentileRank v S
          = (((S.countP fun s => decide (s < v)) : ℚ)
              + 0.5 * ((S.countP fun s => decide (s = v)) : ℚ)) / (S.length : ℚ)
        ∧ percentileRank 2 [1, 2, 2, 3] = 0.5
        ∧ percentileRank 2 [1, 2, 2, 3] * 100 = 50 := by
  intro v S _
  refine ⟨percentileRank_eq v S, ?_, ?_⟩
  · with_unfolding_all rfl
  · with_unfolding_all rfl

/-- C3 witness: the theorem applied at `v = 2`, `S = [1, 2, 2, 3]`. -/
theorem percentileRank_spec_app : percentileRank 2 [1, 2, 2, 3] = 0.5 :=
  (percentileRank_spec 2 [1, 2, 2, 3] (by simp)).2.1

/-- C2 witness: the theorem applied to `v = 2.5` over breakpoints
`[(0, 0), (5, 100)]` (the spec's gradient-interpolation test vector). -/
theorem gradientScore_spec_app :
    gradientScore 2.5 [((0 : ℚ), (0 : ℚ)), (5, 100)]
      = 0 + (2.5 - 0) / (5 - 0) * (100 - 0) :=
  ((gradientScore_spec 2.5 [((0 : ℚ), (0 : ℚ)), (5, 100)]
      (by norm_num [List.chain'_cons])).2 (0, 0) [(5, 100)] rfl).2.2
    [] (0, 0) (5, 100) [] rfl (by norm_num) (by norm_num)

theorem jsRound_eq (x : ℚ) : jsRound x = ⌊x + 1/2⌋ := by
  rw [Rat.floor_def]
  exact Rat.floor_def' _

theorem round2_bounds (x : ℚ) (h0 : 0 ≤ x) (h1 : x ≤ 100) :
    0 ≤ round2 x ∧ round2 x ≤ 100 := by
  unfold round2
  rw [jsRound_eq]
  have hf0 : (0 : ℤ) ≤ ⌊x * 100 + 1/2⌋ := Int.floor_nonneg.mpr (by linarith)
  have hf1 : ⌊x * 100 + 1/2⌋ < 10001 := Int.floor_lt.mpr (by push_cast; linarith)
  constructor
  · exact div_nonneg (by exact_mod_cast hf0) (by norm_num)
  · rw [div_le_iff₀ (by norm_num : (0 : ℚ) < 100)]
    calc ((⌊x * 100 + 1/2⌋ : ℤ) : ℚ) ≤ ((10000 : ℤ) : ℚ) := by
          exact_mod_cast Int.lt_add_one_iff.mp hf1
      _ ≤ 100 * 100 := by norm_num

/-- C4: `ema` fails below `period` closes and otherwise is seeded as the
simple average of the FIRST `period` closes and recursed forward with
multiplier `2/(period+1)` (the statement `emaSpec` of the spec); on
`[1, 2, 3, 4, 5]` with period 3 the seed is 2, the multiplier is 0.5, and
recursing through 4 and 5 yields 4. -/
theorem ema_seed_head :
    (∀ (closes : List ℚ) (period : ℕ), period ≤ closes.length →
        ema closes period = some (emaSpec closes period)) ∧
    ((([1, 2, 3, 4, 5] : List ℚ).take 3).sum / (3 : ℚ) = 2) ∧
    (2 / ((3 : ℚ) + 1) = 0.5) ∧
    emaLoop 0.5 2 [4, 5] = 4 ∧
    ema [1, 2, 3, 4, 5] 3 = some 4 := by
  refine ⟨?_, by norm_num, by norm_num, ?_, ?_⟩
  · intro closes period hle
    rw [ema, if_neg (by omega)]
    unfold emaSpec
    dsimp only
    rw [emaLoop_eq_foldl]
  · with_unfolding_all rfl
  · with_unfolding_all rfl

/-- C4 witness: the general clause applied at `[1, 2, 3, 4, 5]`, period 3. -/
theorem ema_seed_head_app :
    ema [1, 2, 3, 4, 5] 3 = some (emaSpec [1, 2, 3, 4, 5] 3) :=
  ema_seed_head.1 [1, 2, 3, 4, 5] 3 (by simp)

/-! Helper lemmas about `computeIndicators` and its sub-computations. -/

theorem computeIndicators_of_short (bars : List Bar) (h : bars.length < 80) :
    computeIndicators bars = .err "Insufficient data (need at least 80 trading days)" := by
  rw [computeIndicators, if_pos h]

theorem computeIndicators_of_long (bars : List Bar) (h : 80 ≤ bars.length) :
    computeIndicators bars = .ok
      { close := (bars.map Bar.c).getD ((bars.map Bar.c).length - 1) 0
        ema20 := ema (bars.map Bar.c) 20
        sma50 := sma (bars.map Bar.c) 50
        sma50_20ago := smaAt (bars.map Bar.c) 50 20
        rsi14 := rsi (bars.map Bar.c) 14
        atr5 := atr bars 5
        atr14 := atr bars 14
        atr20 := atr bars 20
        avgVol20 := avgVolume bars 20
        return1m := returnPct (bars.map Bar.c) 21
        return3m := returnPct (bars.map Bar.c) 63 } := by
  rw [computeIndicators, if_neg (by omega)]

theorem sma_isSome (closes : List ℚ) (period : ℕ) (h : period ≤ closes.length) :
    (sma closes period).isSome := by
  rw [sma, if_neg (by omega)]; rfl

theorem smaAt_isSome (closes : List ℚ) (period offset : ℕ) (h : period + offset ≤ closes.length) :
    (smaAt closes period offset).isSome := by
  rw [smaAt, if_neg (by omega)]; rfl

theorem ema_isSome (closes : List ℚ) (period : ℕ) (h : period ≤ closes.length) :
    (ema closes period).isSome := by
  rw [ema, if_neg (by omega)]; rfl

theorem rsi_isSome (closes : List ℚ) (period : ℕ) (h : period + 1 ≤ closes.length) :
    (rsi closes period).isSome := by
  rw [rsi, if_neg (by omega)]
  dsimp only
  split_ifs <;> rfl

theorem trSeries_length (bars : List Bar) : (trSeries bars).length = bars.length - 1 := by
  simp [trSeries]

theorem atr_isSome (bars : List Bar) (period : ℕ) (h : period + 1 ≤ bars.length) :
    (atr bars period).isSome := by
  rw [atr, if_neg (by omega)]
  dsimp only
  rw [if_neg (by rw [trSeries_length]; omega)]
  rfl

theorem avgVolume_isSome (bars : List Bar) (period : ℕ) (h : period ≤ bars.length) :
    (avgVolume bars period).isSome := by
  rw [avgVolume, if_neg (by omega)]; rfl

theorem returnPct_isSome (closes : List ℚ) (tradingDays : ℕ) (h : tradingDays + 1 ≤ closes.length) :
    (returnPct closes tradingDays).isSome := by
  rw [returnPct, if_neg (by omega)]; rfl

theorem calcTrendScore_ok (r : IndRec) (h1 : r.ema20.isSome) (h2 : r.sma50.isSome)
    (h3 : r.sma50_20ago.isSome) : calcTrendScore (.ok r) = trendBody r := by
  simp only [calcTrendScore]
  rw [if_neg]
  simp only [Bool.or_eq_true, Option.isNone_iff_eq_none]
  push_neg
  exact ⟨⟨Option.isSome_iff_ne_none.mp h1, Option.isSome_iff_ne_none.mp h2⟩,
    Option.isSome_iff_ne_none.mp h3⟩

theorem calcPullbackScore_ok (r : IndRec) (h1 : r.ema20.isSome) (h2 : r.sma50.isSome) :
    calcPullbackScore (.ok r) = pullbackBody r := by
  simp only [calcPullbackScore]
  rw [if_neg]
  simp only [Bool.or_eq_true, Option.isNone_iff_eq_none]
  push_neg
  exact ⟨Option.isSome_iff_ne_none.mp h1, Option.isSome_iff_ne_none.mp h2⟩

/-- C5: `computeIndicators` returns the error marker (and nothing else)
exactly when the series has fewer than 80 bars. -/
theorem computeIndicators_err_iff :
    ∀ bars : List Bar,
      ((∃ r, computeIndicators bars = .ok r) ↔ 80 ≤ bars.length) ∧
      (bars.length < 80 →
        computeIndicators bars = .err "Insufficient data (need at least 80 trading days)") := by
  intro bars
  constructor
  · constructor
    · rintro ⟨r, hr⟩
      by_contra h
      rw [computeIndicators_of_short bars (by omega)] at hr
      exact IndicatorSet.noConfusion hr
    · intro h
      exact ⟨_, computeIndicators_of_long bars h⟩
  · exact computeIndicators_of_short bars

/-- C5 witness: a 79-bar series yields the error marker and an 80-bar series
yields a full indicator record. -/
theorem computeIndicators_err_iff_app :
    bars79.length = 79 ∧
    computeIndicators bars79 = .err "Insufficient data (need at least 80 trading days)" ∧
    spyBarsEx.length = 80 ∧
    computeIndicators spyBarsEx = .ok spyIndEx :=
  ⟨by simp [bars79], (computeIndicators_err_iff bars79).2 (by simp [bars79]),
   by simp [spyBarsEx], by with_unfolding_all rfl⟩

/-- C6: when the benchmark series has fewer than 80 bars, `calculateAllScores`
fails fatally with the SPY data error and produces no results at all. -/
theorem benchmark_fatal :
    ∀ (stocks : List (String × List Bar)) (spyBars : List Bar), spyBars.length < 80 →
      calculateAllScores stocks spyBars
        = .error ("SPY data error: Insufficient data (need at least 80 trading days)") := by
  intro stocks spyBars h
  have herr := computeIndicators_of_short spyBars h
  simp only [calculateAllScores, herr]
  rfl

/-- C6 witness: the theorem applied to the one-ticker batch with a 79-bar
benchmark. -/
theorem benchmark_fatal_app :
    calculateAllScores cexStocks bars79
      = .error ("SPY data error: Insufficient data (need at least 80 trading days)") :=
  benchmark_fatal cexStocks bars79 (by simp [bars79])

/-- C9: on any series of at least 80 bars every field of the indicator record
is non-null (each sub-computation needs at most 70 bars), so the null-guard
branches of `calcTrendScore` and `calcPullbackScore` are never taken on an
`IndicatorSet` produced by `computeIndicators`. -/
theorem computeIndicators_fields_some :
    ∀ bars : List Bar, 80 ≤ bars.length →
      ∃ r, computeIndicators bars = .ok r ∧
        r.ema20.isSome ∧ r.sma50.isSome ∧ r.sma50_20ago.isSome ∧ r.rsi14.isSome ∧
        r.atr5.isSome ∧ r.atr14.isSome ∧ r.atr20.isSome ∧ r.avgVol20.isSome ∧
        r.return1m.isSome ∧ r.return3m.isSome ∧
        calcTrendScore (computeIndicators bars) = trendBody r ∧
        calcPullbackScore (computeIndicators bars) = pullbackBody r := by
  intro bars h
  have hlen : (bars.map Bar.c).length = bars.length := List.length_map _ _
  have h1 := ema_isSome (bars.map Bar.c) 20 (by omega)
  have h2 := sma_isSome (bars.map Bar.c) 50 (by omega)
  have h3 := smaAt_isSome (bars.map Bar.c) 50 20 (by omega)
  have h4 := rsi_isSome (bars.map Bar.c) 14 (by omega)
  have h5 := atr_isSome bars 5 (by omega)
  have h6 := atr_isSome bars 14 (by omega)
  have h7 := atr_isSome bars 20 (by omega)
  have h8 := avgVolume_isSome bars 20 (by omega)
  have h9 := returnPct_isSome (bars.map Bar.c) 21 (by omega)
  have h10 := returnPct_isSome (bars.map Bar.c) 63 (by omega)
  refine ⟨_, computeIndicators_of_long bars h, h1, h2, h3, h4, h5, h6, h7, h8, h9, h10, ?_, ?_⟩
  · rw [computeIndicators_of_long bars h]
    exact calcTrendScore_ok _ h1 h2 h3
  · rw [computeIndicators_of_long bars h]
    exact calcPullbackScore_ok _ h1 h2

/-- C9 witness: the theorem applied to the concrete 80-bar series. -/
theorem computeIndicators_fields_some_app :
    ∃ r, computeIndicators spyBarsEx = .ok r ∧
      r.ema20.isSome ∧ r.sma50.isSome ∧ r.sma50_20ago.isSome ∧ r.rsi14.isSome ∧
      r.atr5.isSome ∧ r.atr14.isSome ∧ r.atr20.isSome ∧ r.avgVol20.isSome ∧
      r.return1m.isSome ∧ r.return3m.isSome ∧
      calcTrendScore (computeIndicators spyBarsEx) = trendBody r ∧
      calcPullbackScore (computeIndicators spyBarsEx) = pullbackBody r :=
  computeIndicators_fields_some spyBarsEx (by simp [spyBarsEx])

/-! Helper lemmas about `calcRSScores`. -/

theorem calcRSScores_fst (allInd : List (String × IndicatorSet)) (spyInd : IndRec) :
    (calcRSScores allInd spyInd).1
      = allInd.map fun ti =>
          (ti.1, scoreOfComposite (rsValidValues allInd spyInd) (compositeOfInd spyInd ti.2)) := by
  unfold calcRSScores rsComposites
  dsimp only
  rw [List.map_map]
  rfl

theorem zip_self_map {α β : Type _} (l : List α) (f : α → β) :
    l.zip (l.map f) = l.map (fun a => (a, f a)) := by
  induction l with
  | nil => rfl
  | cons x l ih => simp [ih]

theorem compositeOfInd_none_iff (spyInd : IndRec) (ind : IndicatorSet) :
    compositeOfInd spyInd ind = none ↔ rsMissing ind = true := by
  cases ind with
  | err m => simp [compositeOfInd, rsMissing]
  | ok r =>
      simp only [compositeOfInd, rsMissing]
      split_ifs with hc
      · simp [hc]
      · simp [hc]

theorem rsValidValues_eq_filterMap (allInd : List (String × IndicatorSet)) (spyInd : IndRec) :
    rsValidValues allInd spyInd = allInd.filterMap (fun ti => compositeOfInd spyInd ti.2) := by
  unfold rsValidValues rsComposites
  rw [List.filterMap_map]
  rfl

theorem rsValidValues_filter (allInd : List (String × IndicatorSet)) (spyInd : IndRec) :
    rsValidValues (allInd.filter fun ti => !(rsMissing ti.2)) spyInd
      = rsValidValues allInd spyInd := by
  rw [rsValidValues_eq_filterMap, rsValidValues_eq_filterMap]
  induction allInd with
  | nil => rfl
  | cons ti l ih =>
      rw [List.filter_cons]
      cases hm : rsMissing ti.2 with
      | false =>
          have hsome : compositeOfInd spyInd ti.2 ≠ none := by
            intro hn
            rw [(compositeOfInd_none_iff spyInd ti.2).mp hn] at hm
            exact Bool.noConfusion hm
          obtain ⟨c, hc⟩ := Option.ne_none_iff_exists'.mp hsome
          simp [hm, List.filterMap_cons, hc, ih]
      | true =>
          have hnone : compositeOfInd spyInd ti.2 = none :=
            (compositeOfInd_none_iff spyInd ti.2).mpr hm
          simp [hm, List.filterMap_cons, hnone, ih]

theorem percentileRank_nil (v : ℚ) : percentileRank v [] = 0 := by
  simp [percentileRank]

/-- C7: in `calcRSScores` every ticker whose indicator set is an error or has
a null return gets score 0; the percentile population consists exactly of the
valid composites, so dropping the invalid tickers changes neither the
population nor any valid ticker's score; and with no valid composites at all
every score is 0. -/
theorem calcRSScores_excluded :
    ∀ (allInd : List (String × IndicatorSet)) (spyInd : IndRec),
      (∀ pr ∈ allInd.zip (calcRSScores allInd spyInd).1,
          pr.2.1 = pr.1.1 ∧
          (rsMissing pr.1.2 = true → pr.2.2 = 0) ∧
          (∀ comp, compositeOfInd spyInd pr.1.2 = some comp →
              pr.2.2 = percentileRank comp (rsValidValues allInd spyInd) * 100)) ∧
      rsValidValues (allInd.filter fun ti => !(rsMissing ti.2)) spyInd
          = rsValidValues allInd spyInd ∧
      ((calcRSScores (allInd.filter fun ti => !(rsMissing ti.2)) spyInd).1
          = ((allInd.zip (calcRSScores allInd spyInd).1).filter
              fun pr => !(rsMissing pr.1.2)).map Prod.snd) ∧
      (rsValidValues allInd spyInd = [] →
        ∀ ts ∈ (calcRSScores allInd spyInd).1, ts.2 = 0) := by
  intro allInd spyInd
  refine ⟨?_, rsValidValues_filter allInd spyInd, ?_, ?_⟩
  · intro pr hpr
    rw [calcRSScores_fst, zip_self_map] at hpr
    obtain ⟨ti, hti, rfl⟩ := List.mem_map.mp hpr
    refine ⟨rfl, ?_, ?_⟩
    · intro hm
      have hnone := (compositeOfInd_none_iff spyInd ti.2).mpr hm
      show scoreOfComposite _ (compositeOfInd spyInd ti.2) = 0
      rw [hnone]
      rfl
    · intro comp hc
      show scoreOfComposite _ (compositeOfInd spyInd ti.2) = _
      rw [show compositeOfInd spyInd ti.2 = some comp from hc]
      rfl
  · rw [calcRSScores_fst (allInd.filter fun ti => !(rsMissing ti.2)) spyInd,
      rsValidValues_filter allInd spyInd,
      calcRSScores_fst allInd spyInd, zip_self_map, List.filter_map, List.map_map]
    rfl
  · intro hvv ts hts
    rw [calcRSScores_fst] at hts
    obtain ⟨ti, hti, rfl⟩ := List.mem_map.mp hts
    show scoreOfComposite _ (compositeOfInd spyInd ti.2) = 0
    cases hc : compositeOfInd spyInd ti.2 with
    | none => rfl
    | some comp =>
        show percentileRank comp (rsValidValues allInd spyInd) * 100 = 0
        rw [hvv, percentileRank_nil, zero_mul]

/-- C7 witness: the invariance clause applied to a two-ticker indicator map
with one valid and one error entry. -/
theorem calcRSScores_excluded_app :
    rsValidValues ([("AAA", computeIndicators stockBarsEx),
        ("ERR", IndicatorSet.err "x")].filter fun ti => !(rsMissing ti.2)) spyIndEx
      = rsValidValues
          [("AAA", computeIndicators stockBarsEx), ("ERR", IndicatorSet.err "x")] spyIndEx :=
  (calcRSScores_excluded
      [("AAA", computeIndicators stockBarsEx), ("ERR", IndicatorSet.err "x")] spyIndEx).2.1

/-- C10: a ticker whose composite is non-null gets an RS score strictly
between 0 and 100 (its own composite contributes 0.5 to its count), so an RS
score of exactly 0 forces a null composite. -/
theorem rs_score_strict_bounds :
    ∀ (allInd : List (String × IndicatorSet)) (spyInd : IndRec),
      ∀ pr ∈ allInd.zip (calcRSScores allInd spyInd).1,
        (∀ comp, compositeOfInd spyInd pr.1.2 = some comp → 0 < pr.2.2 ∧ pr.2.2 < 100) ∧
        (pr.2.2 = 0 → compositeOfInd spyInd pr.1.2 = none) := by
  intro allInd spyInd pr hpr
  rw [calcRSScores_fst, zip_self_map] at hpr
  obtain ⟨ti, hti, rfl⟩ := List.mem_map.mp hpr
  have hkey : ∀ comp, compositeOfInd spyInd ti.2 = some comp →
      0 < scoreOfComposite (rsValidValues allInd spyInd) (compositeOfInd spyInd ti.2) ∧
      scoreOfComposite (rsValidValues allInd spyInd) (compositeOfInd spyInd ti.2) < 100 := by
    intro comp hc
    have hmem : comp ∈ rsValidValues allInd spyInd := by
      rw [rsValidValues_eq_filterMap]
      exact List.mem_filterMap.mpr ⟨ti, hti, hc⟩
    have hb := percentileRank_mem_bounds comp _ hmem
    rw [hc]
    show 0 < percentileRank comp (rsValidValues allInd spyInd) * 100 ∧
      percentileRank comp (rsValidValues allInd spyInd) * 100 < 100
    constructor
    · nlinarith [hb.1]
    · nlinarith [hb.2]
  refine ⟨hkey, ?_⟩
  intro h0
  by_contra hne
  obtain ⟨comp, hc⟩ := Option.ne_none_iff_exists'.mp hne
  have hb := hkey comp hc
  show False
  have : (0 : ℚ) < 0 := by
    calc (0 : ℚ) < _ := hb.1
    _ = 0 := h0
  exact lt_irrefl 0 this

/-- C10 witness: the theorem applied to a one-ticker indicator map whose
single valid composite is `0.6*20 + 0.4*10 = 16`, giving RS score 50. -/
theorem rs_score_strict_bounds_app :
    (0 : ℚ) < ((("AAA", IndicatorSet.ok
        { defaultIndRec with return1m := some 10, return3m := some 20 }),
      ("AAA", (50 : ℚ)))).2.2 ∧
    ((("AAA", IndicatorSet.ok
        { defaultIndRec with return1m := some 10, return3m := some 20 }),
      ("AAA", (50 : ℚ)))).2.2 < 100 :=
  (rs_score_strict_bounds
      [("AAA", IndicatorSet.ok
        { defaultIndRec with return1m := some 10, return3m := some 20 })] defaultIndRec
      (("AAA", IndicatorSet.ok
        { defaultIndRec with return1m := some 10, return3m := some 20 }),
      ("AAA", (50 : ℚ)))
      (of_decide_eq_true (by with_unfolding_all rfl))).1 16
    (of_decide_eq_true (by with_unfolding_all rfl))

/-! Helper lemmas for the batch pipeline: score bounds and membership. -/

theorem lookup_mem {α β : Type _} [BEq α] [LawfulBEq α] :
    ∀ (l : List (α × β)) (a : α) (b : β), l.lookup a = some b → (a, b) ∈ l := by
  intro l a b
  induction l with
  | nil => intro h; exact Option.noConfusion h
  | cons p l ih =>
      obtain ⟨k, c⟩ := p
      intro h
      rw [List.lookup_cons] at h
      cases hbeq : (a == k) with
      | true =>
          rw [hbeq] at h
          injection h with hcb
          rw [← hcb, eq_of_beq hbeq]
          exact List.mem_cons_self _ _
      | false =>
          rw [hbeq] at h
          exact List.mem_cons_of_mem _ (ih h)

theorem rsScores_bounds (allInd : List (String × IndicatorSet)) (spyInd : IndRec) :
    ∀ p ∈ (calcRSScores allInd spyInd).1, 0 ≤ p.2 ∧ p.2 ≤ 100 := by
  intro p hp
  rw [calcRSScores_fst] at hp
  obtain ⟨ti, hti, rfl⟩ := List.mem_map.mp hp
  show 0 ≤ scoreOfComposite _ (compositeOfInd spyInd ti.2) ∧
    scoreOfComposite _ (compositeOfInd spyInd ti.2) ≤ 100
  cases hc : compositeOfInd spyInd ti.2 with
  | none =>
      refine ⟨le_refl 0, ?_⟩
      show (0 : ℚ) ≤ 100
      norm_num
  | some comp =>
      have hmem : comp ∈ rsValidValues allInd spyInd := by
        rw [rsValidValues_eq_filterMap]
        exact List.mem_filterMap.mpr ⟨ti, hti, hc⟩
      have hne : rsValidValues allInd spyInd ≠ [] := List.ne_nil_of_mem hmem
      have h1 := percentileRank_nonneg comp (rsValidValues allInd spyInd)
      have h2 := percentileRank_le_one comp _ hne
      show 0 ≤ percentileRank comp (rsValidValues allInd spyInd) * 100 ∧
        percentileRank comp (rsValidValues allInd spyInd) * 100 ≤ 100
      constructor <;> nlinarith

theorem calcTrendScore_bounds (ind : IndicatorSet) :
    0 ≤ calcTrendScore ind ∧ calcTrendScore ind ≤ 100 := by
  cases ind with
  | err m => simp [calcTrendScore]
  | ok r =>
      simp only [calcTrendScore]
      split_ifs with hg
      · norm_num
      · unfold trendBody
        have hb1 := gradientScore_bounds ((r.close - r.ema20.getD 0) / r.ema20.getD 0 * 100)
          0 1 [(-5, 0), (0, 0.5), (5, 1)] (by simp)
          (by norm_num [List.chain'_cons])
          (by intro p hp; simp at hp; rcases hp with h | h | h <;> rw [h] <;> norm_num)
        have hb2 := gradientScore_bounds ((r.close - r.sma50.getD 0) / r.sma50.getD 0 * 100)
          0 1 [(-5, 0), (0, 0.5), (5, 1)] (by simp)
          (by norm_num [List.chain'_cons])
          (by intro p hp; simp at hp; rcases hp with h | h | h <;> rw [h] <;> norm_num)
        have hb3 := gradientScore_bounds ((r.ema20.getD 0 - r.sma50.getD 0) / r.sma50.getD 0 * 100)
          0 1 [(-3, 0), (0, 0.5), (3, 1)] (by simp)
          (by norm_num [List.chain'_cons])
          (by intro p hp; simp at hp; rcases hp with h | h | h <;> rw [h] <;> norm_num)
        have hb4 := gradientScore_bounds
          ((r.sma50.getD 0 - r.sma50_20ago.getD 0) / r.sma50_20ago.getD 0 * 100)
          0 1 [(-3, 0), (0, 0.5), (3, 1)] (by simp)
          (by norm_num [List.chain'_cons])
          (by intro p hp; simp at hp; rcases hp with h | h | h <;> rw [h] <;> norm_num)
        constructor
        · linarith [hb1.1, hb2.1, hb3.1, hb4.1]
        · linarith [hb1.2, hb2.2, hb3.2, hb4.2]

theorem calcPullbackScore_bounds (ind : IndicatorSet) :
    0 ≤ calcPullbackScore ind ∧ calcPullbackScore ind ≤ 100 := by
  cases ind with
  | err m => simp [calcPullbackScore]
  | ok r =>
      simp only [calcPullbackScore]
      split_ifs with hg
      · norm_num
      · unfold pullbackBody
        constructor
        · exact le_min (le_max_right _ _) (by norm_num)
        · exact min_le_right _ _

theorem calcVolatilityScore_bounds (ind : IndicatorSet) :
    0 ≤ calcVolatilityScore ind ∧ calcVolatilityScore ind ≤ 100 := by
  cases ind with
  | err m => simp [calcVolatilityScore]
  | ok r =>
      simp only [calcVolatilityScore]
      split_ifs with hg
      · norm_num
      · have hbase := gradientScore_bounds (r.atr14.getD 0 / r.close * 100) 10 100
          [(0, 10), (1, 50), (2, 90), (3, 100), (4, 90), (6, 60), (8, 30), (10, 10)]
          (by simp) (by norm_num [List.chain'_cons])
          (by intro p hp; simp at hp
              rcases hp with h | h | h | h | h | h | h | h <;> rw [h] <;> norm_num)
        refine ⟨le_max_right _ _, max_le ?_ (by norm_num)⟩
        cases havg : r.avgVol20 with
        | none => exact hbase.2
        | some av =>
            dsimp only
            split_ifs with hlt
            · have hpen := gradientScore_bounds av (-40) 0
                [(0, -40), (200000, -20), (500000, 0)]
                (by simp) (by norm_num [List.chain'_cons])
                (by intro p hp; simp at hp
                    rcases hp with h | h | h <;> rw [h] <;> norm_num)
              linarith [hbase.2, hpen.2]
            · exact hbase.2

theorem buildResult_bounds (rsScores : List (String × ℚ)) (rsComps : List (String × Option ℚ))
    (ticker : String) (ind : IndicatorSet)
    (hb : ∀ p ∈ rsScores, 0 ≤ p.2 ∧ p.2 ≤ 100) :
    (0 ≤ (buildResult rsScores rsComps ticker ind).rsScore ∧
      (buildResult rsScores rsComps ticker ind).rsScore ≤ 100) ∧
    (0 ≤ (buildResult rsScores rsComps ticker ind).trendScore ∧
      (buildResult rsScores rsComps ticker ind).trendScore ≤ 100) ∧
    (0 ≤ (buildResult rsScores rsComps ticker ind).pullbackScore ∧
      (buildResult rsScores rsComps ticker ind).pullbackScore ≤ 100) ∧
    (0 ≤ (buildResult rsScores rsComps ticker ind).volatilityScore ∧
      (buildResult rsScores rsComps ticker ind).volatilityScore ≤ 100) ∧
    (0 ≤ (buildResult rsScores rsComps ticker ind).finalScore ∧
      (buildResult rsScores rsComps ticker ind).finalScore ≤ 100) := by
  have h100 : (0 : ℚ) ≤ 100 := by norm_num
  cases ind with
  | err m =>
      exact ⟨⟨le_refl 0, h100⟩, ⟨le_refl 0, h100⟩, ⟨le_refl 0, h100⟩,
        ⟨le_refl 0, h100⟩, ⟨le_refl 0, h100⟩⟩
  | ok r =>
      have hrs : 0 ≤ (rsScores.lookup ticker).getD 0 ∧ (rsScores.lookup ticker).getD 0 ≤ 100 := by
        cases hl : rsScores.lookup ticker with
        | none => exact ⟨le_refl 0, h100⟩
        | some s => simpa using hb (ticker, s) (lookup_mem rsScores ticker s hl)
      have ht := calcTrendScore_bounds (.ok r)
      have hpb := calcPullbackScore_bounds (.ok r)
      have hv := calcVolatilityScore_bounds (.ok r)
      have hf0 : 0 ≤ 0.40 * ((rsScores.lookup ticker).getD 0) + 0.25 * calcTrendScore (.ok r)
          + 0.20 * calcPullbackScore (.ok r) + 0.15 * calcVolatilityScore (.ok r) := by
        linarith [hrs.1, ht.1, hpb.1, hv.1]
      have hf1 : 0.40 * ((rsScores.lookup ticker).getD 0) + 0.25 * calcTrendScore (.ok r)
          + 0.20 * calcPullbackScore (.ok r) + 0.15 * calcVolatilityScore (.ok r) ≤ 100 := by
        linarith [hrs.2, ht.2, hpb.2, hv.2]
      exact ⟨round2_bounds _ hrs.1 hrs.2, round2_bounds _ ht.1 ht.2,
        round2_bounds _ hpb.1 hpb.2, round2_bounds _ hv.1 hv.2, round2_bounds _ hf0 hf1⟩

theorem results_eq (stocks : List (String × List Bar)) (spyBars : List Bar)
    (spyInd : IndRec) (out : BatchOutput)
    (hspy : computeIndicators spyBars = .ok spyInd)
    (heq : calculateAllScores stocks spyBars = .ok out) :
    out.results = ((rawResults stocks spyInd).insertionSort resultRel).enum.map
      (fun p => { p.2 with rank := p.1 + 1 }) := by
  unfold calculateAllScores at heq
  rw [hspy] at heq
  dsimp only at heq
  injection heq with h
  rw [← h]

theorem mem_results (stocks : List (String × List Bar)) (spyBars : List Bar)
    (spyInd : IndRec) (out : BatchOutput)
    (hspy : computeIndicators spyBars = .ok spyInd)
    (heq : calculateAllScores stocks spyBars = .ok out) :
    ∀ r ∈ out.results, ∃ r0 ∈ rawResults stocks spyInd, r = { r0 with rank := r.rank } := by
  intro r hr
  rw [results_eq stocks spyBars spyInd out hspy heq] at hr
  obtain ⟨⟨n, x⟩, hp, rfl⟩ := List.mem_map.mp hr
  have hp2 : x ∈ (rawResults stocks spyInd).insertionSort resultRel := by
    rw [List.enum_eq_zip_range] at hp
    exact (List.of_mem_zip hp).2
  exact ⟨x, (List.perm_insertionSort resultRel _).mem_iff.mp hp2, rfl⟩

theorem mem_rawResults (stocks : List (String × List Bar)) (spyInd : IndRec) :
    ∀ r0 ∈ rawResults stocks spyInd,
      ∃ tb ∈ stocks, r0 = buildResult (calcRSScores (allIndicatorsOf stocks) spyInd).1
        (calcRSScores (allIndicatorsOf stocks) spyInd).2 tb.1 (computeIndicators tb.2) := by
  intro r0 h
  unfold rawResults at h
  dsimp only at h
  obtain ⟨ti, hti, rfl⟩ := List.mem_map.mp h
  unfold allIndicatorsOf at hti
  obtain ⟨tb, htb, rfl⟩ := List.mem_map.mp hti
  exact ⟨tb, htb, rfl⟩

/-- C8: on any batch accepted by `calculateAllScores` every ticker's
`rsScore`, `trendScore`, `pullbackScore`, `volatilityScore` and `finalScore`
lie in `[0, 100]`. -/
theorem scores_in_range :
    ∀ (stocks : List (String × List Bar)) (spyBars : List Bar) (out : BatchOutput),
      calculateAllScores stocks spyBars = .ok out →
      ∀ r ∈ out.results,
        (0 ≤ r.rsScore ∧ r.rsScore ≤ 100) ∧
        (0 ≤ r.trendScore ∧ r.trendScore ≤ 100) ∧
        (0 ≤ r.pullbackScore ∧ r.pullbackScore ≤ 100) ∧
        (0 ≤ r.volatilityScore ∧ r.volatilityScore ≤ 100) ∧
        (0 ≤ r.finalScore ∧ r.finalScore ≤ 100) := by
  intro stocks spyBars out heq r hr
  cases hspy : computeIndicators spyBars with
  | err m =>
      unfold calculateAllScores at heq
      rw [hspy] at heq
      exact Except.noConfusion heq
  | ok spyInd =>
      obtain ⟨r0, hr0, hrrank⟩ := mem_results stocks spyBars spyInd out hspy heq r hr
      obtain ⟨tb, htb, hb0⟩ := mem_rawResults stocks spyInd r0 hr0
      have hbounds := buildResult_bounds (calcRSScores (allIndicatorsOf stocks) spyInd).1
        (calcRSScores (allIndicatorsOf stocks) spyInd).2 tb.1 (computeIndicators tb.2)
        (rsScores_bounds (allIndicatorsOf stocks) spyInd)
      rw [← hb0] at hbounds
      rw [hrrank]
      exact hbounds

/-- C8 witness: the theorem applied to the concrete one-ticker batch. -/
theorem scores_in_range_app :
    (0 ≤ cexRes.rsScore ∧ cexRes.rsScore ≤ 100) ∧
    (0 ≤ cexRes.trendScore ∧ cexRes.trendScore ≤ 100) ∧
    (0 ≤ cexRes.pullbackScore ∧ cexRes.pullbackScore ≤ 100) ∧
    (0 ≤ cexRes.volatilityScore ∧ cexRes.volatilityScore ≤ 100) ∧
    (0 ≤ cexRes.finalScore ∧ cexRes.finalScore ≤ 100) :=
  scores_in_range cexStocks spyBarsEx cexOut (by with_unfolding_all rfl) cexRes
    (by rw [show cexOut.results = [cexRes] from by with_unfolding_all rfl]
        exact List.mem_singleton_self _)

theorem enumFrom_rank_map_finalScore :
    ∀ (n : ℕ) (l : List ScoredResult),
      ((List.enumFrom n l).map
          (fun p => ({ p.2 with rank := p.1 + 1 } : ScoredResult))).map ScoredResult.finalScore
        = l.map ScoredResult.finalScore := by
  intro n l
  induction l generalizing n with
  | nil => rfl
  | cons x l ih => simp [List.enumFrom_cons, ih]

/-- C1 (amended): on an accepted batch the results are sorted descending by
`finalScore` with `rank = i + 1` by sorted position; every error ticker still
appears with the error message and all five scores 0; and every non-error
ticker's stored `finalScore` is the weighted sum
`0.40*rs + 0.25*trend + 0.20*pullback + 0.15*volatility` of its UNROUNDED
sub-scores, rounded to two decimals, while the stored sub-score fields are the
individually rounded sub-scores. -/
theorem calculateAllScores_ranked :
    ∀ (stocks : List (String × List Bar)) (spyBars : List Bar)
      (spyInd : IndRec) (out : BatchOutput),
      computeIndicators spyBars = .ok spyInd →
      calculateAllScores stocks spyBars = .ok out →
      (out.results.map ScoredResult.finalScore).Pairwise (· ≥ ·) ∧
      (∀ i (hi : i < out.results.length), (out.results[i]).rank = i + 1) ∧
      (∀ t ind msg, (t, ind) ∈ allIndicatorsOf stocks → ind = .err msg →
          ∃ r ∈ out.results, r.ticker = t ∧ r.error = some msg ∧ r.finalScore = 0 ∧
            r.rsScore = 0 ∧ r.trendScore = 0 ∧ r.pullbackScore = 0 ∧
            r.volatilityScore = 0) ∧
      (∀ r ∈ out.results, r.error = none →
          ∃ tb ∈ stocks, r.ticker = tb.1 ∧
            r.rsScore = round2
              (((calcRSScores (allIndicatorsOf stocks) spyInd).1.lookup tb.1).getD 0) ∧
            r.trendScore = round2 (calcTrendScore (computeIndicators tb.2)) ∧
            r.pullbackScore = round2 (calcPullbackScore (computeIndicators tb.2)) ∧
            r.volatilityScore = round2 (calcVolatilityScore (computeIndicators tb.2)) ∧
            r.finalScore = round2
              (0.40 * (((calcRSScores (allIndicatorsOf stocks) spyInd).1.lookup tb.1).getD 0)
                + 0.25 * calcTrendScore (computeIndicators tb.2)
                + 0.20 * calcPullbackScore (computeIndicators tb.2)
                + 0.15 * calcVolatilityScore (computeIndicators tb.2))) := by
  intro stocks spyBars spyInd out hspy heq
  have hres := results_eq stocks spyBars spyInd out hspy heq
  refine ⟨?_, ?_, ?_, ?_⟩
  · rw [hres]
    have hmap := enumFrom_rank_map_finalScore 0
      ((rawResults stocks spyInd).insertionSort resultRel)
    rw [show ((rawResults stocks spyInd).insertionSort resultRel).enum
        = List.enumFrom 0 ((rawResults stocks spyInd).insertionSort resultRel) from rfl]
    rw [hmap, List.pairwise_map]
    have hsorted : List.Pairwise resultRel
        ((rawResults stocks spyInd).insertionSort resultRel) :=
      List.sorted_insertionSort resultRel (rawResults stocks spyInd)
    exact hsorted.imp (fun h => h)
  · intro i hi
    have hi2 : i < (((rawResults stocks spyInd).insertionSort resultRel).enum.map
        (fun p => ({ p.2 with rank := p.1 + 1 } : ScoredResult))).length := by
      rw [← hres]; exact hi
    have hi3 : i < (((rawResults stocks spyInd).insertionSort resultRel).enum).length := by
      simpa using hi2
    have hi4 : i < ((rawResults stocks spyInd).insertionSort resultRel).length := by
      simpa using hi3
    have hstep : out.results[i]
        = (((rawResults stocks spyInd).insertionSort resultRel).enum.map
            (fun p => ({ p.2 with rank := p.1 + 1 } : ScoredResult)))[i] := by
      congr 1
    rw [hstep, List.getElem_map]
    rw [show (((rawResults stocks spyInd).insertionSort resultRel).enum)[i]
        = (0 + i, ((rawResults stocks spyInd).insertionSort resultRel)[i])
      from List.getElem_enumFrom _ 0 i hi3]
    simp
  · intro t ind msg hmem hind
    subst hind
    have hraw : buildResult (calcRSScores (allIndicatorsOf stocks) spyInd).1
        (calcRSScores (allIndicatorsOf stocks) spyInd).2 t (.err msg)
        ∈ rawResults stocks spyInd := by
      unfold rawResults
      dsimp only
      exact List.mem_map.mpr ⟨(t, .err msg), hmem, rfl⟩
    have hsm := (List.perm_insertionSort resultRel (rawResults stocks spyInd)).mem_iff.mpr hraw
    obtain ⟨i, hi, hgi⟩ := List.mem_iff_getElem.mp hsm
    refine ⟨{ buildResult (calcRSScores (allIndicatorsOf stocks) spyInd).1
        (calcRSScores (allIndicatorsOf stocks) spyInd).2 t (.err msg) with rank := i + 1 },
      ?_, rfl, rfl, rfl, rfl, rfl, rfl, rfl⟩
    rw [hres]
    apply List.mem_map.mpr
    refine ⟨(i, buildResult (calcRSScores (allIndicatorsOf stocks) spyInd).1
        (calcRSScores (allIndicatorsOf stocks) spyInd).2 t (.err msg)), ?_, rfl⟩
    rw [List.enum_eq_zip_range]
    apply List.mem_iff_getElem.mpr
    refine ⟨i, ?_, ?_⟩
    · simpa using hi
    · rw [List.getElem_zip, List.getElem_range, hgi]
  · intro r hr hrerr
    obtain ⟨r0, hr0, hrrank⟩ := mem_results stocks spyBars spyInd out hspy heq r hr
    obtain ⟨tb, htb, hb0⟩ := mem_rawResults stocks spyInd r0 hr0
    cases hind : computeIndicators tb.2 with
    | err m =>
        exfalso
        rw [hind] at hb0
        have : r.error = some m := by rw [hrrank, hb0]; rfl
        rw [hrerr] at this
        exact Option.noConfusion this
    | ok rec =>
        refine ⟨tb, htb, ?_, ?_, ?_, ?_, ?_, ?_⟩ <;>
          rw [hrrank, hb0, hind] <;> rfl

set_option maxRecDepth 4000 in
/-- C1 counterexample: on a concrete accepted one-ticker batch the stored
`finalScore` (50.41, the rounded weighted sum of the unrounded sub-scores)
differs from the weighted sum of the stored, individually rounded sub-score
fields (50.413), so the claimed equality over the output record is false. -/
theorem calculateAllScores_rounding_cex :
    calculateAllScores cexStocks spyBarsEx = Except.ok cexOut ∧
    cexRes ∈ cexOut.results ∧
    cexRes.error = none ∧
    cexRes.finalScore = 5041/100 ∧
    0.40 * cexRes.rsScore + 0.25 * cexRes.trendScore + 0.20 * cexRes.pullbackScore
      + 0.15 * cexRes.volatilityScore = 50413/1000 ∧
    cexRes.finalScore ≠ 0.40 * cexRes.rsScore + 0.25 * cexRes.trendScore
      + 0.20 * cexRes.pullbackScore + 0.15 * cexRes.volatilityScore := by
  refine ⟨by with_unfolding_all rfl, ?_, by with_unfolding_all rfl, by with_unfolding_all rfl,
    by with_unfolding_all rfl, ?_⟩
  · rw [show cexOut.results = [cexRes] from by with_unfolding_all rfl]
    exact List.mem_singleton_self _
  · rw [show cexRes.finalScore = 5041/100 from by with_unfolding_all rfl,
      show 0.40 * cexRes.rsScore + 0.25 * cexRes.trendScore + 0.20 * cexRes.pullbackScore
        + 0.15 * cexRes.volatilityScore = 50413/1000 from by with_unfolding_all rfl]
    norm_num

/-- C1 witness: the sortedness clause of the amended theorem on the concrete
one-ticker batch. -/
theorem calculateAllScores_ranked_app :
    (cexOut.results.map ScoredResult.finalScore).Pairwise (· ≥ ·) :=
  (calculateAllScores_ranked cexStocks spyBarsEx spyIndEx cexOut
    (by with_unfolding_all rfl) (by with_unfolding_all rfl)).1
